import Mathlib

/-!
Verification of the schema-reconciliation and query-construction core of the
FSM application (src/main.py).  The Python functions `smart_column_mapping`,
`ensure_columns`, `insert_df_to_table`, `process_uploaded_files`,
`process_zip_file` and the predicate-building part of `search_page` are
embedded shallowly below; pandas column operations are modelled pointwise on
rows, and the BigQuery store is modelled as a list of rows together with the
standard semantics of the single SELECT the code issues.
-/

namespace FSM

/-! ### Character-list string primitives

The Python string operations used by `main.py` (`str.lower`, `str.strip`,
`str.replace`, `re.sub`, `in`, `list.index`, `str.endswith`) are modelled on
`List Char`.  Case mapping is ASCII; every column header handled by the
program is ASCII. -/

def lowerChar (c : Char) : Char :=
  if 'A' ≤ c ∧ c ≤ 'Z' then Char.ofNat (c.toNat + 32) else c

def lowerStr (s : String) : String :=
  String.mk (s.data.map lowerChar)

def isSpaceC (c : Char) : Bool :=
  c == ' ' || c == '\t' || c == '\n' || c == '\r'

/-- Python `str.strip()` with no argument: drop whitespace on both ends. -/
def trimStr (s : String) : String :=
  String.mk (((s.data.dropWhile isSpaceC).reverse.dropWhile isSpaceC).reverse)

/-- `expected_col.strip().lower()` from `smart_column_mapping`. -/
def trimLower (s : String) : String := lowerStr (trimStr s)

def isPrefixB : List Char → List Char → Bool
  | [], _ => true
  | _ :: _, [] => false
  | a :: as, b :: bs => a == b && isPrefixB as bs

/-- Boolean substring containment: `needle` occurs contiguously in the hay. -/
def isInfixB (needle : List Char) : List Char → Bool
  | [] => isPrefixB needle []
  | c :: h2 => isPrefixB needle (c :: h2) || isInfixB needle h2

/-- Fuel-guided worker for `replaceL`; the fuel is the input length, and each
step consumes at least one input character and exactly one unit of fuel, so
the fuel-exhausted arm is never reached. -/
def replaceFuel (pat rep : List Char) : Nat → List Char → List Char
  | _, [] => []
  | 0, s => s
  | Nat.succ fuel, c :: s =>
    if pat ≠ [] ∧ isPrefixB pat (c :: s) = true then
      rep ++ replaceFuel pat rep fuel (List.drop (pat.length - 1) s)
    else
      c :: replaceFuel pat rep fuel s

/-- Python `str.replace(pat, rep)`: replace every non-overlapping occurrence,
left to right.  An empty pattern leaves the string unchanged (the program
never replaces an empty pattern). -/
def replaceL (pat rep s : List Char) : List Char :=
  replaceFuel pat rep s.length s

def strReplace (s pat rep : String) : String :=
  String.mk (replaceL pat.data rep.data s.data)

def isAlnumLower (c : Char) : Bool :=
  decide (('a' ≤ c ∧ c ≤ 'z') ∨ ('0' ≤ c ∧ c ≤ '9'))

/-- `re.sub(r'[^a-z0-9]', '', s)`. -/
def alnumOnly (s : String) : String :=
  String.mk (s.data.filter isAlnumLower)

/-- First index of `x` in a list of strings (Python `list.index`, as an
option). -/
def indexOfStr (x : String) : List String → Option Nat
  | [] => none
  | y :: ys =>
    if y == x then some 0
    else
      match indexOfStr x ys with
      | some i => some (i + 1)
      | none => none

def endsWithL (suffix s : List Char) : Bool :=
  isPrefixB suffix.reverse s.reverse

/-! ### Data model: cell values, rows, frames, schemas -/

/-- A cell of a tabular frame.  `tsv n` stands for the second-resolution UTC
timestamp string `datetime.utcnow().strftime("%Y-%m-%d %H:%M:%S")` rendered
from `n` seconds; `dat d` stands for a rendered calendar date. -/
inductive Value where
  | null : Value
  | str (s : String) : Value
  | num (q : Rat) : Value
  | dat (d : Nat) : Value
  | tsv (t : Nat) : Value
deriving DecidableEq

/-- One record, as an association list from column name to cell value. -/
abbrev Row := List (String × Value)

def lookupV : Row → String → Option Value
  | [], _ => none
  | p :: r, c => if p.1 == c then some p.2 else lookupV r c

/-- An in-memory tabular frame (the shape `pandas` delivers to the core):
an ordered column-name list plus rows keyed by those names. -/
structure Df where
  cols : List String
  rows : List Row
deriving DecidableEq

/-- Canonical schema: ordered column name / type-tag pairs (a Python dict in
the source, iterated in insertion order). -/
abbrev Schema := List (String × String)

def STATE_COLS : Schema :=
  [("FBO NAME", "text"), ("ADDRESS", "text"), ("DISTT", "text"),
   ("STATE", "text"), ("KOB", "text"), ("CONTACT", "text"),
   ("RESPONSIBLE MO", "text"), ("Y", "text"), ("REF ID", "text"),
   ("AMOUNT", "numeric"), ("LICENSE", "text"), ("COMPLIANCE MO", "text"),
   ("EXPIRY", "date"), ("source_filename", "text"),
   ("ingestion_timestamp", "datetime")]

def REG_COLS : Schema :=
  [("refId", "text"), ("certificateNo", "text"), ("companyName", "text"),
   ("addressPremises", "text"), ("premiseVillageName", "text"),
   ("correspondenceDistrictName", "text"), ("stateName", "text"),
   ("contactMobile", "text"), ("contactPerson", "text"),
   ("displayRefId", "text"), ("kobNameDetails", "text"),
   ("productName", "text"), ("expiryDate", "date"), ("issuedDate", "date"),
   ("talukName", "text"), ("pincodePremises", "text"),
   ("applicantMobileNo", "text"), ("noOfYears", "numeric"),
   ("statusId", "text"), ("appType", "text"), ("amount", "numeric"),
   ("source_filename", "text"), ("ingestion_timestamp", "datetime")]

/-- `expected_cols = STATE_COLS if table_name == "state_licence" else REG_COLS`. -/
def schemaFor (tableName : String) : Schema :=
  if tableName == "state_licence" then STATE_COLS else REG_COLS

/-! ### Column Reconciler: `smart_column_mapping` -/

/-- The `variations` list built inside `smart_column_mapping` for one
canonical column (its argument is the already trimmed-and-lowered name). -/
def variationsOf (expectedLower : String) : List String :=
  [expectedLower,
   strReplace expectedLower " " "_",
   strReplace expectedLower "_" " ",
   alnumOnly expectedLower,
   trimStr (strReplace expectedLower "name" ""),
   strReplace (strReplace expectedLower "no" "number") "num" "number"]

def firstVarIndex (vars : List String) (cols : List String) : Option Nat :=
  match vars with
  | [] => none
  | v :: vs =>
    match indexOfStr v cols with
    | some i => some i
    | none => firstVarIndex vs cols

/-- The source column `smart_column_mapping` assigns to one canonical column:
exact match first, then case-insensitive, then the fuzzy variations, each
independent of every other canonical column. -/
def colFor (dfColumns : List String) (expectedCol : String) : Option String :=
  let dfColsLower := dfColumns.map trimLower
  let expectedLower := trimLower expectedCol
  if dfColumns.contains expectedCol then some expectedCol
  else
    match indexOfStr expectedLower dfColsLower with
    | some idx => some (dfColumns.getD idx "")
    | none =>
      match firstVarIndex (variationsOf expectedLower) dfColsLower with
      | some idx => some (dfColumns.getD idx "")
      | none => none

/-- `smart_column_mapping(df_columns, expected_columns)`: one entry per
canonical column, in schema order (`none` is the unmatched marker). -/
def smart_column_mapping (dfColumns : List String) (expectedColumns : List String) :
    List (String × Option String) :=
  expectedColumns.map fun c => (c, colFor dfColumns c)

/-! ### Row Coercer: `ensure_columns` and the coercion primitives

The two branch guards in `ensure_columns` compare the schema type tag against
the upper-case strings `"NUMERIC"`, `"DATE"`, `"TIMESTAMP"`, exactly as the
source does; the registered schemas above carry the lower-case tags `"text"`,
`"numeric"`, `"date"`, `"datetime"`, also exactly as the source does. -/

def digitVal (c : Char) : Option Nat :=
  if '0' ≤ c ∧ c ≤ '9' then some (c.toNat - 48) else none

def digitsToNat : List Char → Option Nat
  | [] => none
  | ds =>
    ds.foldl (fun acc c => acc.bind fun n => (digitVal c).map fun d => 10 * n + d)
      (some 0)

/-- Decimal-literal parsing, standing for `pd.to_numeric(..., errors='coerce')`
on a string cell: optional sign, digits, optional fractional part; anything
else (including the empty string) is unparsable.  Scientific notation is not
modelled; no registered schema reaches this parser (the tags are lower-case,
see `coerceCell`). -/
def parseDecimal (s : String) : Option Rat :=
  let cs := (trimStr s).data
  let signed : Int × List Char :=
    match cs with
    | '-' :: r => (-1, r)
    | '+' :: r => (1, r)
    | _ => (1, cs)
  let intPart := signed.2.takeWhile fun c => decide ('0' ≤ c ∧ c ≤ '9')
  let rest := signed.2.drop intPart.length
  match rest with
  | [] =>
    (digitsToNat intPart).map fun n => (signed.1 * n : Int)
  | '.' :: frac =>
    if frac.all (fun c => decide ('0' ≤ c ∧ c ≤ '9')) ∧ intPart ++ frac ≠ [] then
      (digitsToNat (intPart ++ frac ++ ['0'])).map fun n =>
        (signed.1 * n : Int) / ((10 : Rat) ^ (frac.length + 1))
    else none
  | _ => none

def toNumericV : Value → Value
  | Value.null => Value.null
  | Value.num q => Value.num q
  | Value.str s =>
    match parseDecimal s with
    | some q => Value.num q
    | none => Value.null
  | Value.dat _ => Value.null
  | Value.tsv _ => Value.null

/-- ISO `yyyy-mm-dd` parsing, standing for the permissive
`pd.to_datetime(..., errors='coerce')` parser; the resulting day code is an
injective encoding of the calendar date.  No registered schema reaches this
parser (the tags are lower-case, see `coerceCell`). -/
def parseISODate (s : String) : Option Nat :=
  let cs := (trimStr s).data
  let y := cs.takeWhile fun c => decide ('0' ≤ c ∧ c ≤ '9')
  match cs.drop y.length with
  | '-' :: r1 =>
    let m := r1.takeWhile fun c => decide ('0' ≤ c ∧ c ≤ '9')
    match r1.drop m.length with
    | '-' :: r2 =>
      if r2.all (fun c => decide ('0' ≤ c ∧ c ≤ '9')) ∧ r2 ≠ [] then
        (digitsToNat y).bind fun yv =>
          (digitsToNat m).bind fun mv =>
            (digitsToNat r2).map fun dv => yv * 372 + (mv - 1) * 31 + (dv - 1)
      else none
    | _ => none
  | _ => none

def toDatetimeV : Value → Value
  | Value.null => Value.null
  | Value.dat d => Value.dat d
  | Value.tsv t => Value.tsv t
  | Value.num _ => Value.null
  | Value.str s =>
    match parseISODate s with
    | some d => Value.dat d
    | none => Value.null

/-- Stand-in renderings used only when a non-string cell is converted by
`astype(str)`; no property below depends on their exact text. -/
def numRender (q : Rat) : String := toString q

def dateRender (d : Nat) : String := toString d

def tsRender (t : Nat) : String := toString t

/-- `df[source_col].astype(str).replace({"nan": None, "None": None})`,
pointwise on one cell: a missing value stringifies to "nan"/"None" and is
normalized back to null; those two literal strings are likewise normalized;
everything else becomes its string form. -/
def astypeStrV : Value → Value
  | Value.null => Value.null
  | Value.str s => if s == "nan" || s == "None" then Value.null else Value.str s
  | Value.num q => Value.str (numRender q)
  | Value.dat d => Value.str (dateRender d)
  | Value.tsv t => Value.str (tsRender t)

/-- The per-cell coercion of `ensure_columns`, keyed on the schema type tag
exactly as written in the source: `== "NUMERIC"` and `in ["DATE",
"TIMESTAMP"]`. -/
def coerceCell (ty : String) (v : Value) : Value :=
  if ty == "NUMERIC" then toNumericV v
  else if ty == "DATE" || ty == "TIMESTAMP" then toDatetimeV v
  else astypeStrV v

/-- Python `mapping.get(target_col)` on the association list produced by
`smart_column_mapping`; a missing key and an unmatched column both yield
`none` (in Python: `None`). -/
def mappingGet (m : List (String × Option String)) (k : String) : Option String :=
  match m.find? (fun p => p.1 == k) with
  | some p => p.2
  | none => none

def lookupVD (r : Row) (c : String) : Value :=
  (lookupV r c).getD Value.null

/-- `ensure_columns(df, expected_cols)`: one output column per canonical
column, read through the mapping when the mapped source column is truthy and
present, null otherwise.  The pandas per-column operations are applied
pointwise per row. -/
def ensure_columns (df : Df) (expected : Schema) : Df :=
  let mapping := smart_column_mapping df.cols (expected.map Prod.fst)
  { cols := expected.map Prod.fst,
    rows := df.rows.map fun r =>
      expected.map fun te =>
        (te.1,
          match mappingGet mapping te.1 with
          | some srcCol =>
            if srcCol ≠ "" ∧ df.cols.contains srcCol = true then
              coerceCell te.2 (lookupVD r srcCol)
            else Value.null
          | none => Value.null) }

/-! ### `insert_df_to_table`: metadata stamping, forced conversion, append -/

/-- `df[c] = v` for a scalar `v`: overwrite the column when present, else
append it; every row receives the same value. -/
def setColConst (d : Df) (c : String) (v : Value) : Df :=
  if d.cols.contains c then
    { cols := d.cols,
      rows := d.rows.map fun r => r.map fun p => if p.1 == c then (p.1, v) else p }
  else
    { cols := d.cols ++ [c], rows := d.rows.map fun r => r ++ [(c, v)] }

def mapCol (d : Df) (c : String) (f : Value → Value) : Df :=
  { cols := d.cols,
    rows := d.rows.map fun r => r.map fun p => if p.1 == c then (p.1, f p.2) else p }

/-- `pd.to_datetime(col, errors="coerce").dt.strftime("%Y-%m-%d")` on one
cell; the rendered text is kept as a date value (no property below depends on
it, and no registered schema reaches this branch). -/
def forceDate (v : Value) : Value :=
  match toDatetimeV v with
  | Value.dat d => Value.dat d
  | Value.tsv t => Value.dat (t / 86400)
  | _ => Value.null

/-- `pd.to_datetime(col, errors="coerce").dt.strftime("%Y-%m-%d %H:%M:%S")`
on one cell: parsing and re-rendering a second-resolution timestamp string is
the identity on it. -/
def forceTs (v : Value) : Value :=
  match toDatetimeV v with
  | Value.tsv t => Value.tsv t
  | Value.dat d => Value.tsv (d * 86400)
  | _ => Value.null

/-- The "Force conversion of DATE and TIMESTAMP columns" loop of
`insert_df_to_table`, with the source's upper-case comparisons. -/
def forceConvertDf (expected : Schema) (d : Df) : Df :=
  expected.foldl
    (fun acc ce =>
      if acc.cols.contains ce.1 then
        if ce.2 == "DATE" then mapCol acc ce.1 forceDate
        else if ce.2 == "TIMESTAMP" then mapCol acc ce.1 forceTs
        else acc
      else acc)
    d

/-- The frame `insert_df_to_table` actually loads: `ensure_columns`, then the
`source_filename` default (guarded by column absence, exactly as in the
source), then the uniform `ingestion_timestamp` stamp taken once from
`datetime.utcnow()` (`now`, in seconds), then the forced conversions. -/
def fixedDf (df : Df) (expected : Schema) (now : Nat) : Df :=
  let d1 := ensure_columns df expected
  let d2 := if d1.cols.contains "source_filename" then d1
            else setColConst d1 "source_filename" (Value.str "manual_upload")
  let d3 := setColConst d2 "ingestion_timestamp" (Value.tsv now)
  forceConvertDf expected d3

/-- `insert_df_to_table`: append the fixed frame and return its row count; a
load-job failure (`storeOk = false`) is caught inside the function, which then
returns 0 with the store unchanged. -/
def insert_df_to_table (df : Df) (expected : Schema) (now : Nat) (storeOk : Bool)
    (store : List Row) : Nat × List Row :=
  let dfFixed := fixedDf df expected now
  if storeOk then (dfFixed.rows.length, store ++ dfFixed.rows) else (0, store)

/-- The row count `insert_df_to_table` reports. -/
def insertCount (df : Df) (expected : Schema) (now : Nat) (storeOk : Bool) : Nat :=
  if storeOk then (fixedDf df expected now).rows.length else 0

/-! ### Batch Ingestor: `process_uploaded_files` and `process_zip_file`

A file is a name together with the outcome of reading it
(`pd.read_csv` / `pd.read_excel`): a frame, or a raised error. -/

def okDf (f : String × Except String Df) : Option Df :=
  match f.2 with
  | Except.ok df => some df
  | Except.error _ => none

/-- `f.lower().endswith((".csv", ".xlsx", ".xls"))`. -/
def tabularName (n : String) : Bool :=
  endsWithL ".csv".data (lowerStr n).data ||
  endsWithL ".xlsx".data (lowerStr n).data ||
  endsWithL ".xls".data (lowerStr n).data

/-- `process_uploaded_files`: the per-file `try` isolates a read failure to
that file; a successful read always increments `successful_files` (a store
failure was already swallowed inside `insert_df_to_table`).  Returns
`(total_rows, successful_files)`. -/
def process_uploaded_files (files : List (String × Except String Df))
    (tableName : String) (now : Nat) (storeOk : Bool) : Nat × Nat :=
  let expected := schemaFor tableName
  files.foldl
    (fun acc f =>
      match f.2 with
      | Except.ok df => (acc.1 + insertCount df expected now storeOk, acc.2 + 1)
      | Except.error _ => acc)
    (0, 0)

/-- The `for fname in namelist` loop of `process_zip_file`.  The `try` wraps
the whole loop, so the first entry whose read raises aborts the remaining
entries, keeping the totals accumulated so far. -/
def zipLoop (expected : Schema) (now : Nat) (storeOk : Bool) :
    Nat → Nat → List (String × Except String Df) → Nat × Nat
  | total, succ, [] => (total, succ)
  | total, succ, (_, Except.error _) :: _ => (total, succ)
  | total, succ, (_, Except.ok df) :: rest =>
    zipLoop expected now storeOk (total + insertCount df expected now storeOk)
      (succ + 1) rest

/-- `process_zip_file`: filter the archive listing to recognized tabular
extensions, then run the loop.  Returns `(total, successful_files)`. -/
def process_zip_file (entries : List (String × Except String Df))
    (tableName : String) (now : Nat) (storeOk : Bool) : Nat × Nat :=
  zipLoop (schemaFor tableName) now storeOk 0 0
    (entries.filter fun e => tabularName e.1)

/-! ### Filter Predicate Builder: the search part of `search_page`

Each `Cond` constructor corresponds to one condition-building f-string in
`search_page`; `renderChars` reproduces the exact SQL fragment text, and
`evalCond` gives the fragment its standard SQL semantics over one row
(a NULL comparison excludes the row). -/

inductive Cond where
  | likeContains (col term : String) : Cond
  | likeRaw (col pat : String) : Cond
  | eqv (col v : String) : Cond
  | and2 (a b : Cond) : Cond
  | ltCurrentDate (col : String) : Cond
  | recentTs : Cond
  | dateEq (col : String) (d : Nat) : Cond
deriving DecidableEq

def renderChars : Cond → List Char
  | Cond.likeContains c t =>
    "`".data ++ c.data ++ "` LIKE \x27%".data ++ t.data ++ "%\x27".data
  | Cond.likeRaw c p =>
    "`".data ++ c.data ++ "` LIKE \x27".data ++ p.data ++ "\x27".data
  | Cond.eqv c v =>
    "`".data ++ c.data ++ "` = \x27".data ++ v.data ++ "\x27".data
  | Cond.and2 a b =>
    "(".data ++ renderChars a ++ " AND ".data ++ renderChars b ++ ")".data
  | Cond.ltCurrentDate c =>
    "`".data ++ c.data ++ "` < CURRENT_DATE()".data
  | Cond.recentTs =>
    "`ingestion_timestamp` > TIMESTAMP_SUB(CURRENT_TIMESTAMP(), INTERVAL 7 DAY)".data
  | Cond.dateEq c d =>
    "DATE(`".data ++ c.data ++ "`) = \x27".data ++ (dateRender d).data ++ "\x27".data

def render (c : Cond) : String := String.mk (renderChars c)

/-- `" AND ".join(where_conditions) if where_conditions else "1=1"`. -/
def whereClause (conds : List Cond) : String :=
  match conds with
  | [] => "1=1"
  | c :: cs =>
    String.mk (cs.foldl (fun acc c2 => acc ++ " AND ".data ++ renderChars c2)
      (renderChars c))

/-- All suffixes of a character list, longest first (the list itself down to
the empty list). -/
def tailsL : List Char → List (List Char)
  | [] => [[]]
  | c :: s => (c :: s) :: tailsL s

/-- SQL `LIKE` pattern matching over character lists: `%` matches any run
(tried as every suffix of the remaining subject), `_` matches one character,
everything else matches itself. -/
def likeChars : List Char → List Char → Bool
  | [], s => s.isEmpty
  | p :: ps, s =>
    if p == '%' then
      (tailsL s).any fun s2 => likeChars ps s2
    else
      match s with
      | [] => false
      | c :: s2 => (p == '_' || p == c) && likeChars ps s2

/-- The string content of a cell, for the string-typed SQL comparisons; a
non-string cell makes the comparison fail (the searched columns are text). -/
def strLookup (r : Row) (c : String) : Option String :=
  match lookupV r c with
  | some (Value.str s) => some s
  | _ => none

def evalCond (now : Nat) (row : Row) : Cond → Bool
  | Cond.likeContains c t =>
    match strLookup row c with
    | some s => likeChars ('%' :: (t.data ++ ['%'])) s.data
    | none => false
  | Cond.likeRaw c p =>
    match strLookup row c with
    | some s => likeChars p.data s.data
    | none => false
  | Cond.eqv c v =>
    match strLookup row c with
    | some s => s == v
    | none => false
  | Cond.and2 a b => evalCond now row a && evalCond now row b
  | Cond.ltCurrentDate c =>
    match lookupV row c with
    | some (Value.dat d) => decide (d < now / 86400)
    | some (Value.tsv t) => decide (t / 86400 < now / 86400)
    | _ => false
  | Cond.recentTs =>
    match lookupV row "ingestion_timestamp" with
    | some (Value.tsv t) => decide (now < t + 604800)
    | _ => false
  | Cond.dateEq c d =>
    match lookupV row c with
    | some (Value.dat d2) => d2 == d
    | some (Value.tsv t) => (t / 86400) == d
    | _ => false

/-- A row satisfies the WHERE clause iff it satisfies every condition; the
empty condition list renders as `1=1`, which every row satisfies. -/
def evalConds (now : Nat) (conds : List Cond) (row : Row) : Bool :=
  conds.all (evalCond now row)

/-- The `FilterRequest` a search run of `search_page` collects from the UI:
the two primary-key text inputs (empty string when untouched, Python-falsy),
the two quick-filter checkboxes, the advanced filters, the source substring
("" when untouched) and the two optional date pickers (day codes, already
rendered to `%Y-%m-%d` text by the code). -/
structure FilterRequest where
  searchTerms : List String
  showExpired : Bool
  showRecent : Bool
  filterOptions : List (String × String)
  sourceFilter : String
  dateFilter : Option Nat
  expiryDateFilter : Option Nat
deriving DecidableEq

def primary_keys (table : String) : List String :=
  if table == "state_licence" then ["REF ID", "LICENSE"] else ["refId", "certificateNo"]

def expiry_col (table : String) : String :=
  if table == "state_licence" then "EXPIRY" else "expiryDate"

/-- The `pk_conditions` list: one contains-condition per supplied (truthy)
search term, bound positionally to the table's primary-key columns. -/
def pkConditions (pks terms : List String) : List Cond :=
  (pks.zip terms).filterMap fun p =>
    if p.2 ≠ "" then some (Cond.likeContains p.1 p.2) else none

/-- The `where_conditions` list of `search_page`, in the order the source
appends them: primary-key search (one condition when one term is supplied,
one AND-combined condition when both are), quick filters, advanced filters
(LIKE when the value contains `%`, equality otherwise), source filter,
ingestion-date filter, expiry-date filter. -/
def whereConditions (req : FilterRequest) (table : String) : List Cond :=
  let pkc := pkConditions (primary_keys table) req.searchTerms
  let pkPart : List Cond :=
    match pkc with
    | [c] => [c]
    | [c1, c2] => [Cond.and2 c1 c2]
    | _ => []
  let expiredPart := if req.showExpired then [Cond.ltCurrentDate (expiry_col table)] else []
  let recentPart := if req.showRecent then [Cond.recentTs] else []
  let advPart := req.filterOptions.map fun p =>
    if p.2.data.contains '%' then Cond.likeRaw p.1 p.2 else Cond.eqv p.1 p.2
  let sourcePart :=
    if req.sourceFilter ≠ "" then [Cond.likeContains "source_filename" req.sourceFilter]
    else []
  let datePart :=
    match req.dateFilter with
    | some d => [Cond.dateEq "ingestion_timestamp" d]
    | none => []
  let expiryPart :=
    match req.expiryDateFilter with
    | some d => [Cond.dateEq (expiry_col table) d]
    | none => []
  pkPart ++ expiredPart ++ recentPart ++ advPart ++ sourcePart ++ datePart ++ expiryPart

/-- A compiled predicate: the condition fragments plus the bound-parameter
list, modelling the `where_conditions` / `params` pair of `search_page`.  The
source initializes `params = {}` and never writes to it. -/
structure Predicate where
  conds : List Cond
  params : List (String × String)
deriving DecidableEq

def build_predicate (req : FilterRequest) (table : String) : Predicate :=
  { conds := whereConditions req table, params := [] }

/-- The full query text the code sends to the store. -/
def queryString (req : FilterRequest) (table : String) : String :=
  "SELECT * FROM `" ++ table ++ "` WHERE " ++
    whereClause (build_predicate req table).conds ++
    " ORDER BY `ingestion_timestamp` DESC LIMIT 5000"

/-- A `FilterRequest` with nothing filled in. -/
def emptyFilterRequest : FilterRequest :=
  { searchTerms := ["", ""], showExpired := false, showRecent := false,
    filterOptions := [], sourceFilter := "", dateFilter := none,
    expiryDateFilter := none }

/-- A request with only the two primary-key search terms filled in. -/
def pkRequest (t1 t2 : String) : FilterRequest :=
  { searchTerms := [t1, t2], showExpired := false, showRecent := false,
    filterOptions := [], sourceFilter := "", dateFilter := none,
    expiryDateFilter := none }

/-! ### Query execution: `ORDER BY ingestion_timestamp DESC LIMIT 5000` -/

def tsKey (r : Row) : Nat :=
  match lookupV r "ingestion_timestamp" with
  | some (Value.tsv t) => t
  | _ => 0

def insertDesc (r : Row) : List Row → List Row
  | [] => [r]
  | x :: xs => if tsKey x < tsKey r then r :: x :: xs else x :: insertDesc r xs

def sortDesc (l : List Row) : List Row := l.foldr insertDesc []

/-- Rows ordered most-recently-ingested first. -/
def sortedDescBy (l : List Row) : Prop :=
  List.Pairwise (fun a b => tsKey b ≤ tsKey a) l

/-- Executing the search query against a store holding `store` rows: keep the
rows satisfying the predicate, order them by ingestion timestamp descending,
and cap the result at 5000 rows. -/
def execute_search (req : FilterRequest) (table : String) (store : List Row)
    (now : Nat) : List Row :=
  (sortDesc (store.filter fun r =>
    evalConds now (build_predicate req table).conds r)).take 5000

/-! ### Lemmas about `LIKE` matching -/

theorem nil_mem_tailsL (s : List Char) : [] ∈ tailsL s := by
  induction s with
  | nil => simp [tailsL]
  | cons c s ih => simp [tailsL, ih]

theorem tails_any_empty (s : List Char) :
    ((tailsL s).any fun s2 => likeChars [] s2) = true := by
  induction s with
  | nil => rfl
  | cons c s ih => simp [tailsL, likeChars, ih, nil_mem_tailsL]

theorem likeChars_pct_nil (s : List Char) : likeChars ['%'] s = true := by
  simp [likeChars, nil_mem_tailsL]

theorem likeChars_lit (t : List Char) (hpct : '%' ∉ t) (hus : '_' ∉ t) :
    ∀ s, likeChars (t ++ ['%']) s = isPrefixB t s := by
  induction t with
  | nil =>
    intro s
    simp [isPrefixB, likeChars_pct_nil s]
  | cons a t ih =>
    intro s
    have ha1 : (a == '%') = false := by
      simp only [List.mem_cons, not_or] at hpct
      simp [Ne.symm hpct.1]
    have ha2 : (a == '_') = false := by
      simp only [List.mem_cons, not_or] at hus
      simp [Ne.symm hus.1]
    have ht1 : '%' ∉ t := by
      simp only [List.mem_cons, not_or] at hpct
      exact hpct.2
    have ht2 : '_' ∉ t := by
      simp only [List.mem_cons, not_or] at hus
      exact hus.2
    cases s with
    | nil => simp [likeChars, isPrefixB, ha1]
    | cons c s2 => simp [likeChars, isPrefixB, ha1, ha2, ih ht1 ht2 s2]

theorem isInfixB_any_tails (t s : List Char) :
    isInfixB t s = ((tailsL s).any fun s2 => isPrefixB t s2) := by
  induction s with
  | nil => simp [isInfixB, tailsL]
  | cons c s2 ih => simp [isInfixB, tailsL, ih]

theorem anyB_congr {α : Type} (l : List α) (f g : α → Bool)
    (h : ∀ a ∈ l, f a = g a) : l.any f = l.any g := by
  induction l with
  | nil => rfl
  | cons x xs ih =>
    simp only [List.any_cons]
    rw [h x (List.mem_cons_self x xs), ih fun a ha => h a (List.mem_cons_of_mem x ha)]

theorem likeChars_contains (t : List Char) (hpct : '%' ∉ t) (hus : '_' ∉ t)
    (s : List Char) : likeChars ('%' :: (t ++ ['%'])) s = isInfixB t s := by
  have h1 : likeChars ('%' :: (t ++ ['%'])) s
      = (tailsL s).any fun s2 => likeChars (t ++ ['%']) s2 := by
    simp [likeChars]
  rw [h1, anyB_congr _ _ _ fun a _ => likeChars_lit t hpct hus a, ← isInfixB_any_tails]

/-! ### Lemmas about row lookups and column overwrites -/

theorem lookupV_overwrite (r : Row) (c : String) (v : Value)
    (h : c ∈ r.map Prod.fst) :
    lookupV (r.map fun p => if p.1 == c then (p.1, v) else p) c = some v := by
  induction r with
  | nil => simp at h
  | cons p r ih =>
    by_cases hc : p.1 = c
    · simp [lookupV, hc]
    · have hb : (p.1 == c) = false := by simp [hc]
      simp only [List.map_cons, List.mem_cons] at h
      simp only [List.map_cons, hb, Bool.false_eq_true, if_false, lookupV]
      rcases h with h | h
      · exact absurd h.symm (by simpa using hc)
      · simpa [hb] using ih h

theorem keys_overwrite (r : Row) (c : String) (v : Value) :
    (r.map fun p => if p.1 == c then (p.1, v) else p).map Prod.fst = r.map Prod.fst := by
  rw [List.map_map]
  apply List.map_congr_left
  intro p _
  by_cases hc : p.1 = c <;> simp [hc]

theorem ensure_columns_cols (df : Df) (E : Schema) :
    (ensure_columns df E).cols = E.map Prod.fst := rfl

theorem ensure_columns_keys (df : Df) (E : Schema) :
    ∀ r ∈ (ensure_columns df E).rows, r.map Prod.fst = E.map Prod.fst := by
  intro r hr
  simp only [ensure_columns, List.mem_map] at hr
  obtain ⟨r0, _, rfl⟩ := hr
  simp [List.map_map]

/-! ### The forced-conversion loop is the identity on both registered schemas
(every type tag is lower-case, never `"DATE"` or `"TIMESTAMP"`) -/

theorem forceConvertDf_state (d : Df) : forceConvertDf STATE_COLS d = d := by
  simp [forceConvertDf, STATE_COLS]

theorem forceConvertDf_reg (d : Df) : forceConvertDf REG_COLS d = d := by
  simp [forceConvertDf, REG_COLS]

/-- Every row loaded by `insert_df_to_table` under either registered schema
carries `ingestion_timestamp = now`, the single `datetime.utcnow()` sample. -/
theorem fixedDf_ts_lookup (df : Df) (E : Schema)
    (hE : E = STATE_COLS ∨ E = REG_COLS) (now : Nat) :
    ∀ r ∈ (fixedDf df E now).rows,
      lookupV r "ingestion_timestamp" = some (Value.tsv now) := by
  have hsf : (E.map Prod.fst).contains "source_filename" = true := by
    rcases hE with h | h <;> subst h <;> decide
  have hts : (E.map Prod.fst).contains "ingestion_timestamp" = true := by
    rcases hE with h | h <;> subst h <;> decide
  have hforce : ∀ d, forceConvertDf E d = d := by
    rcases hE with h | h <;> subst h
    · exact forceConvertDf_state
    · exact forceConvertDf_reg
  intro r hr
  unfold fixedDf at hr
  rw [hforce] at hr
  simp only [setColConst, ensure_columns_cols, hsf, hts, if_true] at hr
  simp only [List.mem_map] at hr
  obtain ⟨r0, hr0, rfl⟩ := hr
  apply lookupV_overwrite
  rw [ensure_columns_keys df E r0 hr0]
  simpa using hts

/-! ### Sorting (`ORDER BY ingestion_timestamp DESC`) -/

theorem mem_insertDesc (a r : Row) (l : List Row) :
    a ∈ insertDesc r l ↔ a = r ∨ a ∈ l := by
  induction l with
  | nil => simp [insertDesc]
  | cons x xs ih =>
    by_cases h : tsKey x < tsKey r
    · simp [insertDesc, h]
    · simp [insertDesc, h, ih]
      tauto

theorem length_insertDesc (r : Row) (l : List Row) :
    (insertDesc r l).length = l.length + 1 := by
  induction l with
  | nil => rfl
  | cons x xs ih =>
    by_cases h : tsKey x < tsKey r <;> simp [insertDesc, h, ih]

theorem sorted_insertDesc (r : Row) (l : List Row) (hl : sortedDescBy l) :
    sortedDescBy (insertDesc r l) := by
  induction l with
  | nil => simp [insertDesc, sortedDescBy]
  | cons x xs ih =>
    rw [sortedDescBy, List.pairwise_cons] at hl
    by_cases h : tsKey x < tsKey r
    · rw [sortedDescBy, insertDesc]
      simp only [h, if_true]
      rw [List.pairwise_cons]
      constructor
      · intro b hb
        rcases List.mem_cons.mp hb with hb | hb
        · exact hb ▸ Nat.le_of_lt h
        · exact Nat.le_trans (hl.1 b hb) (Nat.le_of_lt h)
      · rw [List.pairwise_cons]
        exact hl
    · rw [sortedDescBy, insertDesc]
      simp only [h, if_false]
      rw [List.pairwise_cons]
      constructor
      · intro b hb
        rcases (mem_insertDesc b r xs).mp hb with hb | hb
        · exact hb ▸ Nat.le_of_not_lt h
        · exact hl.1 b hb
      · exact ih hl.2

theorem sorted_sortDesc (l : List Row) : sortedDescBy (sortDesc l) := by
  induction l with
  | nil => simp [sortDesc, sortedDescBy]
  | cons x xs ih => exact sorted_insertDesc x (sortDesc xs) ih

theorem mem_sortDesc (a : Row) (l : List Row) : a ∈ sortDesc l ↔ a ∈ l := by
  induction l with
  | nil => simp [sortDesc]
  | cons x xs ih =>
    rw [sortDesc, List.foldr_cons, mem_insertDesc]
    rw [sortDesc] at ih
    simp [ih]

theorem length_sortDesc (l : List Row) : (sortDesc l).length = l.length := by
  induction l with
  | nil => rfl
  | cons x xs ih =>
    rw [sortDesc, List.foldr_cons, length_insertDesc]
    rw [sortDesc] at ih
    simp [ih]

theorem take_of_le {α : Type} (n : Nat) (l : List α) (h : l.length ≤ n) :
    l.take n = l := by
  induction l generalizing n with
  | nil => simp
  | cons x xs ih =>
    cases n with
    | zero => simp at h
    | succ m =>
      simp only [List.length_cons, Nat.succ_le_succ_iff] at h
      simp [List.take, ih m h]

theorem filter_true_of {α : Type} (l : List α) (p : α → Bool)
    (h : ∀ a ∈ l, p a = true) : l.filter p = l := by
  induction l with
  | nil => rfl
  | cons x xs ih =>
    rw [List.filter_cons, h x (List.mem_cons_self x xs)]
    simp only [if_true]
    rw [ih fun a ha => h a (List.mem_cons_of_mem x ha)]

/-! ### Analysis of `smart_column_mapping` for the no-reuse property -/

theorem indexOfStr_some (x : String) (l : List String) (i : Nat)
    (h : indexOfStr x l = some i) : i < l.length ∧ l.getD i "" = x := by
  induction l generalizing i with
  | nil => simp [indexOfStr] at h
  | cons y ys ih =>
    rw [indexOfStr] at h
    by_cases hy : (y == x) = true
    · rw [if_pos hy] at h
      injection h with h
      subst h
      refine ⟨Nat.succ_pos _, ?_⟩
      simpa using hy
    · rw [if_neg hy] at h
      cases hm : indexOfStr x ys with
      | none => rw [hm] at h; cases h
      | some j =>
        rw [hm] at h
        injection h with h
        subst h
        obtain ⟨hlt, hget⟩ := ih j hm
        exact ⟨Nat.succ_lt_succ hlt, by simpa using hget⟩

theorem getD_map_str (l : List String) (f : String → String) (i : Nat)
    (h : i < l.length) : (l.map f).getD i "" = f (l.getD i "") := by
  induction l generalizing i with
  | nil => simp at h
  | cons y ys ih =>
    cases i with
    | zero => rfl
    | succ j =>
      simp only [List.length_cons, Nat.succ_lt_succ_iff] at h
      simpa using ih j h

theorem firstVarIndex_some (vs cols : List String) (i : Nat)
    (h : firstVarIndex vs cols = some i) :
    ∃ v ∈ vs, indexOfStr v cols = some i := by
  induction vs with
  | nil => simp [firstVarIndex] at h
  | cons v vs ih =>
    rw [firstVarIndex] at h
    cases hv : indexOfStr v cols with
    | some j =>
      rw [hv] at h
      cases h
      exact ⟨v, List.mem_cons_self v vs, hv⟩
    | none =>
      rw [hv] at h
      obtain ⟨w, hw, hw2⟩ := ih h
      exact ⟨w, List.mem_cons_of_mem v hw, hw2⟩

/-- Whatever source column `smart_column_mapping` assigns to a canonical
column is either that canonical name itself (exact match) or a source column
whose trimmed-lowered form is one of the canonical column's variations. -/
theorem colFor_spec (dfCols : List String) (c X : String)
    (h : colFor dfCols c = some X) :
    X = c ∨ trimLower X ∈ variationsOf (trimLower c) := by
  rw [colFor] at h
  by_cases hex : dfCols.contains c = true
  · rw [hex] at h
    simp only [if_true, Option.some.injEq] at h
    exact Or.inl h.symm
  · simp only [hex, Bool.false_eq_true, if_false] at h
    cases hidx : indexOfStr (trimLower c) (dfCols.map trimLower) with
    | some idx =>
      rw [hidx] at h
      simp only [Option.some.injEq] at h
      obtain ⟨hlt, hget⟩ := indexOfStr_some _ _ _ hidx
      rw [List.length_map] at hlt
      rw [getD_map_str dfCols trimLower idx hlt, h] at hget
      right
      rw [hget]
      exact List.mem_cons_self _ _
    | none =>
      rw [hidx] at h
      cases hfv : firstVarIndex (variationsOf (trimLower c)) (dfCols.map trimLower) with
      | some idx =>
        rw [hfv] at h
        simp only [Option.some.injEq] at h
        obtain ⟨v, hv, hvi⟩ := firstVarIndex_some _ _ _ hfv
        obtain ⟨hlt, hget⟩ := indexOfStr_some _ _ _ hvi
        rw [List.length_map] at hlt
        rw [getD_map_str dfCols trimLower idx hlt, h] at hget
        right
        rw [hget]
        exact hv
      | none =>
        rw [hfv] at h
        cases h

theorem mem_smart_column_mapping (dfCols keys : List String) (c : String)
    (o : Option String) (h : (c, o) ∈ smart_column_mapping dfCols keys) :
    c ∈ keys ∧ o = colFor dfCols c := by
  simp only [smart_column_mapping, List.mem_map, Prod.mk.injEq] at h
  obtain ⟨k, hk, rfl, rfl⟩ := h
  exact ⟨hk, rfl⟩

/-- The variation sets of distinct canonical columns of one registered schema
are pairwise disjoint (a finite computation over the two concrete schemas). -/
theorem variations_disjoint_state :
    ∀ c1 ∈ STATE_COLS.map Prod.fst, ∀ c2 ∈ STATE_COLS.map Prod.fst, c1 ≠ c2 →
      ∀ v ∈ variationsOf (trimLower c1), v ∉ variationsOf (trimLower c2) := by
  decide

theorem variations_disjoint_reg :
    ∀ c1 ∈ REG_COLS.map Prod.fst, ∀ c2 ∈ REG_COLS.map Prod.fst, c1 ≠ c2 →
      ∀ v ∈ variationsOf (trimLower c1), v ∉ variationsOf (trimLower c2) := by
  decide

theorem trimLower_mem_variations (c : String) :
    trimLower c ∈ variationsOf (trimLower c) :=
  List.mem_cons_self _ _

/-! ### Batch-ingestion accounting lemmas -/

theorem pu_foldl (E : Schema) (now : Nat) (storeOk : Bool)
    (files : List (String × Except String Df)) (a b : Nat) :
    files.foldl
      (fun acc f =>
        match f.2 with
        | Except.ok df => (acc.1 + insertCount df E now storeOk, acc.2 + 1)
        | Except.error _ => acc)
      (a, b)
    = (a + ((files.filterMap okDf).map fun df => insertCount df E now storeOk).sum,
       b + (files.filterMap okDf).length) := by
  induction files generalizing a b with
  | nil => simp
  | cons f fs ih =>
    obtain ⟨name, r⟩ := f
    cases r with
    | ok df =>
      rw [List.foldl_cons]
      rw [ih (a + insertCount df E now storeOk) (b + 1)]
      simp [okDf, Nat.add_assoc, Nat.add_comm 1]
    | error e =>
      rw [List.foldl_cons]
      rw [ih a b]
      simp [okDf]

theorem zipLoop_abort (E : Schema) (now : Nat) (storeOk : Bool)
    (pre : List (String × Except String Df)) (name msg : String)
    (post : List (String × Except String Df))
    (hpre : ∀ e ∈ pre, (okDf e).isSome = true) (t s : Nat) :
    zipLoop E now storeOk t s (pre ++ (name, Except.error msg) :: post)
      = (t + ((pre.filterMap okDf).map fun df => insertCount df E now storeOk).sum,
         s + pre.length) := by
  induction pre generalizing t s with
  | nil => simp [zipLoop]
  | cons e pre ih =>
    obtain ⟨n2, r⟩ := e
    cases r with
    | error e2 =>
      have := hpre (n2, Except.error e2) (List.mem_cons_self _ _)
      simp [okDf] at this
    | ok df =>
      rw [List.cons_append]
      rw [show zipLoop E now storeOk t s
            ((n2, Except.ok df) :: (pre ++ (name, Except.error msg) :: post))
          = zipLoop E now storeOk (t + insertCount df E now storeOk) (s + 1)
              (pre ++ (name, Except.error msg) :: post) from rfl]
      rw [ih (fun x hx => hpre x (List.mem_cons_of_mem _ hx))]
      simp [okDf, Nat.add_assoc, Nat.add_comm 1]

/-! ### Predicate-builder helper lemmas -/

theorem whereConditions_empty (table : String) :
    whereConditions emptyFilterRequest table = [] := by
  have hpk : pkConditions (primary_keys table) ["", ""] = [] := by
    rw [primary_keys]
    by_cases h : (table == "state_licence") = true
    · rw [if_pos h]; rfl
    · rw [if_neg h]; rfl
  simp [whereConditions, emptyFilterRequest, hpk]

theorem empty_matches_all (table : String) (now : Nat) (row : Row) :
    evalConds now (build_predicate emptyFilterRequest table).conds row = true := by
  rw [build_predicate, whereConditions_empty]
  rfl

theorem empty_search_complete (table : String) (store : List Row) (now : Nat)
    (hlen : store.length ≤ 5000) :
    ∀ r ∈ store, r ∈ execute_search emptyFilterRequest table store now := by
  intro r hr
  rw [execute_search]
  rw [filter_true_of store _ fun a _ => empty_matches_all table now a]
  rw [take_of_le 5000 (sortDesc store) (by rw [length_sortDesc]; exact hlen)]
  exact (mem_sortDesc r store).mpr hr

theorem primary_keys_pair (table : String) :
    primary_keys table
      = [(primary_keys table).getD 0 "", (primary_keys table).getD 1 ""] := by
  by_cases h : (table == "state_licence") = true <;> simp [primary_keys, h]

theorem pkConditions_pair (k0 k1 t1 t2 : String) :
    pkConditions [k0, k1] [t1, t2]
      = (if t1 ≠ "" then [Cond.likeContains k0 t1] else [])
        ++ (if t2 ≠ "" then [Cond.likeContains k1 t2] else []) := by
  by_cases h1 : t1 = "" <;> by_cases h2 : t2 = "" <;>
    simp [pkConditions, h1, h2]

theorem pkRequest_conds (table t1 t2 : String) :
    (build_predicate (pkRequest t1 t2) table).conds
      = (match pkConditions (primary_keys table) [t1, t2] with
         | [c] => [c]
         | [c1, c2] => [Cond.and2 c1 c2]
         | _ => []) := by
  simp [build_predicate, whereConditions, pkRequest]

theorem evalCond_contains (now : Nat) (row : Row) (c t v : String)
    (hp : '%' ∉ t.data ∧ '_' ∉ t.data)
    (hv : strLookup row c = some v) :
    evalCond now row (Cond.likeContains c t) = isInfixB t.data v.data := by
  simp only [evalCond]
  rw [hv]
  exact likeChars_contains t.data hp.1 hp.2 v.data

theorem pk_both_eval (table t1 t2 : String) (now : Nat) (row : Row)
    (v1 v2 : String) (h1 : t1 ≠ "") (h2 : t2 ≠ "")
    (hp1 : '%' ∉ t1.data ∧ '_' ∉ t1.data)
    (hp2 : '%' ∉ t2.data ∧ '_' ∉ t2.data)
    (hv1 : strLookup row ((primary_keys table).getD 0 "") = some v1)
    (hv2 : strLookup row ((primary_keys table).getD 1 "") = some v2) :
    evalConds now (build_predicate (pkRequest t1 t2) table).conds row
      = (isInfixB t1.data v1.data && isInfixB t2.data v2.data) := by
  rw [pkRequest_conds, primary_keys_pair table, pkConditions_pair]
  rw [if_pos h1, if_pos h2]
  show (evalCond now row (Cond.and2 _ _) && true) = _
  rw [Bool.and_true]
  show (evalCond now row (Cond.likeContains _ t1)
      && evalCond now row (Cond.likeContains _ t2)) = _
  rw [evalCond_contains now row _ t1 v1 hp1 hv1,
      evalCond_contains now row _ t2 v2 hp2 hv2]

/-! ### Claim theorems -/

/-- Claim C1: when both primary-key search terms are supplied the predicate
builder adds one combined condition that is the conjunction (AND) of the two
per-column substring matches, so a row matches only if its first primary-key
column contains the first term and its second contains the second; with
exactly one term it adds a single contains condition on that term's column;
with neither it adds no primary-key condition. -/
theorem c1_dual_key_search_and (table t1 t2 : String) (now : Nat) (row : Row)
    (hp1 : '%' ∉ t1.data ∧ '_' ∉ t1.data)
    (hp2 : '%' ∉ t2.data ∧ '_' ∉ t2.data) :
    (t1 ≠ "" → t2 ≠ "" →
      (build_predicate (pkRequest t1 t2) table).conds
        = [Cond.and2 (Cond.likeContains ((primary_keys table).getD 0 "") t1)
                     (Cond.likeContains ((primary_keys table).getD 1 "") t2)]
      ∧ ∀ v1 v2 : String,
          strLookup row ((primary_keys table).getD 0 "") = some v1 →
          strLookup row ((primary_keys table).getD 1 "") = some v2 →
          evalConds now (build_predicate (pkRequest t1 t2) table).conds row
            = (isInfixB t1.data v1.data && isInfixB t2.data v2.data))
  ∧ (t1 ≠ "" → t2 = "" →
      (build_predicate (pkRequest t1 t2) table).conds
        = [Cond.likeContains ((primary_keys table).getD 0 "") t1]
      ∧ ∀ v1 : String,
          strLookup row ((primary_keys table).getD 0 "") = some v1 →
          evalConds now (build_predicate (pkRequest t1 t2) table).conds row
            = isInfixB t1.data v1.data)
  ∧ (t1 = "" → t2 ≠ "" →
      (build_predicate (pkRequest t1 t2) table).conds
        = [Cond.likeContains ((primary_keys table).getD 1 "") t2]
      ∧ ∀ v2 : String,
          strLookup row ((primary_keys table).getD 1 "") = some v2 →
          evalConds now (build_predicate (pkRequest t1 t2) table).conds row
            = isInfixB t2.data v2.data)
  ∧ (t1 = "" → t2 = "" →
      (build_predicate (pkRequest t1 t2) table).conds = []) := by
  refine ⟨fun h1 h2 => ?_, fun h1 h2 => ?_, fun h1 h2 => ?_, fun h1 h2 => ?_⟩
  · constructor
    · rw [pkRequest_conds, primary_keys_pair table, pkConditions_pair,
        if_pos h1, if_pos h2]
      rfl
    · intro v1 v2 hv1 hv2
      exact pk_both_eval table t1 t2 now row v1 v2 h1 h2 hp1 hp2 hv1 hv2
  · have hc : (build_predicate (pkRequest t1 t2) table).conds
        = [Cond.likeContains ((primary_keys table).getD 0 "") t1] := by
      rw [pkRequest_conds, primary_keys_pair table, pkConditions_pair,
        if_pos h1, if_neg (by simp [h2])]
      rfl
    refine ⟨hc, fun v1 hv1 => ?_⟩
    rw [hc]
    show (evalCond now row (Cond.likeContains _ t1) && true) = _
    rw [Bool.and_true, evalCond_contains now row _ t1 v1 hp1 hv1]
  · have hc : (build_predicate (pkRequest t1 t2) table).conds
        = [Cond.likeContains ((primary_keys table).getD 1 "") t2] := by
      rw [pkRequest_conds, primary_keys_pair table, pkConditions_pair,
        if_neg (by simp [h1]), if_pos h2]
      rfl
    refine ⟨hc, fun v2 hv2 => ?_⟩
    rw [hc]
    show (evalCond now row (Cond.likeContains _ t2) && true) = _
    rw [Bool.and_true, evalCond_contains now row _ t2 v2 hp2 hv2]
  · rw [pkRequest_conds, primary_keys_pair table, pkConditions_pair,
      if_neg (by simp [h1]), if_neg (by simp [h2])]
    rfl

/-- Witness for C1 at concrete inputs: both terms supplied, the predicate is
the AND of the two contains conditions and matches the row that contains both
terms. -/
theorem c1_witness :
    evalConds 0 (build_predicate (pkRequest "a" "b") "state_licence").conds
        [("REF ID", Value.str "xa"), ("LICENSE", Value.str "by")]
      = (isInfixB "a".data "xa".data && isInfixB "b".data "by".data) :=
  ((c1_dual_key_search_and "state_licence" "a" "b" 0
      [("REF ID", Value.str "xa"), ("LICENSE", Value.str "by")]
      (by decide) (by decide)).1
    (by decide) (by decide)).2 "xa" "by" (by decide) (by decide)

/-- Counterexample to claim C2: compiling a request whose primary-key term is
"SECRET" produces a predicate with an empty parameter list, and the filter
value appears verbatim inside the rendered condition text, so the value is
not carried out-of-band. -/
theorem c2_counterexample :
    (build_predicate (pkRequest "SECRET" "") "state_licence").params = []
    ∧ (build_predicate (pkRequest "SECRET" "") "state_licence").conds.map render
        = ["`REF ID` LIKE \x27%SECRET%\x27"]
    ∧ isInfixB "SECRET".data (renderChars (Cond.likeContains "REF ID" "SECRET"))
        = true := by
  decide

theorem isPrefixB_append_self (t post : List Char) :
    isPrefixB t (t ++ post) = true := by
  induction t with
  | nil => rfl
  | cons a t ih => simp [isPrefixB, ih]

theorem isInfixB_of_prefix (t s : List Char) (h : isPrefixB t s = true) :
    isInfixB t s = true := by
  cases s with
  | nil => exact h
  | cons c s2 => simp [isInfixB, h]

theorem isInfixB_parts (pre t post : List Char) :
    isInfixB t (pre ++ t ++ post) = true := by
  induction pre with
  | nil =>
    simp only [List.nil_append]
    exact isInfixB_of_prefix t (t ++ post) (isPrefixB_append_self t post)
  | cons c pre ih =>
    simp only [List.cons_append, isInfixB, Bool.or_eq_true]
    right
    simpa [List.append_assoc] using ih

/-- Claim C2, amended: the builder never populates the parameter list (it is
always empty), and each value-carrying condition embeds its filter value
directly in the rendered fragment text. -/
theorem c2_amended_inline_values :
    (∀ (req : FilterRequest) (table : String),
      (build_predicate req table).params = [])
    ∧ (∀ c t : String,
        isInfixB t.data (renderChars (Cond.likeContains c t)) = true)
    ∧ (∀ c p : String,
        isInfixB p.data (renderChars (Cond.likeRaw c p)) = true)
    ∧ (∀ c v : String,
        isInfixB v.data (renderChars (Cond.eqv c v)) = true) := by
  refine ⟨fun _ _ => rfl, fun c t => ?_, fun c p => ?_, fun c v => ?_⟩
  · show isInfixB t.data
      ("`".data ++ c.data ++ "` LIKE \x27%".data ++ t.data ++ "%\x27".data) = true
    rw [show "`".data ++ c.data ++ "` LIKE \x27%".data ++ t.data ++ "%\x27".data
        = ("`".data ++ c.data ++ "` LIKE \x27%".data) ++ t.data ++ "%\x27".data by
      simp [List.append_assoc]]
    exact isInfixB_parts _ t.data _
  · show isInfixB p.data
      ("`".data ++ c.data ++ "` LIKE \x27".data ++ p.data ++ "\x27".data) = true
    rw [show "`".data ++ c.data ++ "` LIKE \x27".data ++ p.data ++ "\x27".data
        = ("`".data ++ c.data ++ "` LIKE \x27".data) ++ p.data ++ "\x27".data by
      simp [List.append_assoc]]
    exact isInfixB_parts _ p.data _
  · show isInfixB v.data
      ("`".data ++ c.data ++ "` = \x27".data ++ v.data ++ "\x27".data) = true
    rw [show "`".data ++ c.data ++ "` = \x27".data ++ v.data ++ "\x27".data
        = ("`".data ++ c.data ++ "` = \x27".data) ++ v.data ++ "\x27".data by
      simp [List.append_assoc]]
    exact isInfixB_parts _ v.data _

/-- Claim C3: for any source header list and either registered canonical
schema, reconciliation never assigns the same source column to two different
canonical columns. -/
theorem c3_no_source_reuse (dfColumns keys : List String)
    (hk : keys = STATE_COLS.map Prod.fst ∨ keys = REG_COLS.map Prod.fst)
    (c1 c2 X1 X2 : String)
    (h1 : (c1, some X1) ∈ smart_column_mapping dfColumns keys)
    (h2 : (c2, some X2) ∈ smart_column_mapping dfColumns keys)
    (hne : c1 ≠ c2) : X1 ≠ X2 := by
  intro hXX
  subst hXX
  obtain ⟨hc1k, ho1⟩ := mem_smart_column_mapping dfColumns keys c1 (some X1) h1
  obtain ⟨hc2k, ho2⟩ := mem_smart_column_mapping dfColumns keys c2 (some X1) h2
  have s1 := colFor_spec dfColumns c1 X1 ho1.symm
  have s2 := colFor_spec dfColumns c2 X1 ho2.symm
  have hdisj : ∀ v ∈ variationsOf (trimLower c1), v ∉ variationsOf (trimLower c2) := by
    rcases hk with rfl | rfl
    · exact variations_disjoint_state c1 hc1k c2 hc2k hne
    · exact variations_disjoint_reg c1 hc1k c2 hc2k hne
  rcases s1 with he1 | hv1
  · rcases s2 with he2 | hv2
    · exact hne (he1.symm.trans he2)
    · rw [he1] at hv2
      exact hdisj (trimLower c1) (trimLower_mem_variations c1) hv2
  · rcases s2 with he2 | hv2
    · rw [he2] at hv1
      exact hdisj (trimLower c2) hv1 (trimLower_mem_variations c2)
    · exact hdisj (trimLower X1) hv1 hv2

/-- Witness for C3 at concrete inputs: the state-licence schema against its
own two primary-key headers maps them to two distinct source columns. -/
theorem c3_witness : ("REF ID" : String) ≠ "LICENSE" :=
  c3_no_source_reuse ["REF ID", "LICENSE"] (STATE_COLS.map Prod.fst)
    (Or.inl rfl) "REF ID" "LICENSE" "REF ID" "LICENSE"
    (by decide) (by decide) (by decide)

def c4df : Df := ⟨["FBO NAME"], [[("FBO NAME", Value.str "x")]]⟩

/-- Claim C4 is violated by the code: `ensure_columns` always emits a
`source_filename` column, so the guard `if "source_filename" not in
df_fixed.columns` in `insert_df_to_table` never fires, and a row whose source
data does not populate `source_filename` is loaded with null there, not with
the "manual_upload" sentinel. -/
theorem c4_source_filename_bug :
    (ensure_columns c4df STATE_COLS).cols.contains "source_filename" = true
    ∧ lookupV ((fixedDf c4df STATE_COLS 7).rows.getD 0 []) "source_filename"
        = some Value.null
    ∧ some Value.null ≠ some (Value.str "manual_upload") := by
  decide

def c5df : Df := ⟨["AMOUNT"], [[("AMOUNT", Value.str "abc")]]⟩

/-- Claim C5 is violated by the code: the registered type tag of the numeric
column `AMOUNT` is the lower-case "numeric", the coercion branch tests for
the upper-case "NUMERIC", so an unparsable numeric cell passes through the
text path as the string "abc" instead of becoming null; the upper-case branch
(which never runs for a registered schema) would have nulled it. -/
theorem c5_numeric_coercion_bug :
    STATE_COLS.filter (fun p => p.1 == "AMOUNT") = [("AMOUNT", "numeric")]
    ∧ lookupV ((ensure_columns c5df STATE_COLS).rows.getD 0 []) "AMOUNT"
        = some (Value.str "abc")
    ∧ coerceCell "numeric" (Value.str "abc") = Value.str "abc"
    ∧ coerceCell "NUMERIC" (Value.str "abc") = Value.null
    ∧ some (Value.str "abc") ≠ some Value.null := by
  decide

def c6dfA : Df :=
  ⟨["FBO NAME"], [[("FBO NAME", Value.str "r1")], [("FBO NAME", Value.str "r2")]]⟩

def c6dfC : Df := ⟨["FBO NAME"], [[("FBO NAME", Value.str "r3")]]⟩

/-- Counterexample to claim C6 at concrete inputs.  Archive batch of three
entries whose second is unreadable: the result is 1 successful file and 2
total rows — the third entry is never processed, contradicting the claim that
the remaining files are still processed (which would give 2 successes and 3
rows).  Plain-list batch of one readable file whose store append fails: the
result counts the file as successful (1) with 0 rows, contradicting the claim
that a store-append error counts the file as failed. -/
theorem c6_counterexample :
    process_zip_file
        [("a.csv", Except.ok c6dfA), ("b.csv", Except.error "bad zip entry"),
         ("c.csv", Except.ok c6dfC)] "state_licence" 0 true = (2, 1)
    ∧ process_uploaded_files [("d.csv", Except.ok c6dfA)] "state_licence" 0 false
        = (0, 1) := by
  decide

/-- Claim C6, amended: in plain-list ingestion a failure reading one file is
isolated to that file — the remaining files are still processed, exactly the
readable files are counted successful (a store-append failure is swallowed
inside the insert, so such a file still counts as successful with zero rows),
and the total is the sum of the readable files' reported row counts.  In
archive ingestion, the first unreadable entry aborts the batch: the counts
cover only the entries before it, and later entries are not processed. -/
theorem c6_failure_isolation (tableName : String) (now : Nat) (storeOk : Bool) :
    (∀ files : List (String × Except String Df),
      process_uploaded_files files tableName now storeOk
        = (((files.filterMap okDf).map fun df =>
              insertCount df (schemaFor tableName) now storeOk).sum,
           (files.filterMap okDf).length))
    ∧ (∀ (pre post : List (String × Except String Df)) (name msg : String),
        (∀ e ∈ pre, (okDf e).isSome = true) →
        (∀ e ∈ pre ++ (name, Except.error msg) :: post, tabularName e.1 = true) →
        process_zip_file (pre ++ (name, Except.error msg) :: post)
            tableName now storeOk
          = (((pre.filterMap okDf).map fun df =>
                insertCount df (schemaFor tableName) now storeOk).sum,
             pre.length)) := by
  constructor
  · intro files
    rw [process_uploaded_files]
    rw [pu_foldl (schemaFor tableName) now storeOk files 0 0]
    simp
  · intro pre post name msg hpre hnames
    rw [process_zip_file]
    rw [filter_true_of _ _ hnames]
    rw [zipLoop_abort (schemaFor tableName) now storeOk pre name msg post hpre 0 0]
    simp

/-- Witness for C6 at concrete inputs: one readable entry before a corrupt
archive entry, one readable entry after it. -/
theorem c6_witness :
    process_zip_file
        [("a.csv", Except.ok c6dfA), ("b.csv", Except.error "bad"),
         ("c.csv", Except.ok c6dfC)] "state_licence" 3 true = (2, 1) := by
  have h := (c6_failure_isolation "state_licence" 3 true).2
    [("a.csv", Except.ok c6dfA)] [("c.csv", Except.ok c6dfC)] "b.csv" "bad"
    (by decide) (by decide)
  exact h.trans (by decide)

theorem insert_new_rows (df : Df) (expected : Schema) (now : Nat)
    (storeOk : Bool) (store : List Row) :
    (insert_df_to_table df expected now storeOk store).2.drop store.length
      = if storeOk then (fixedDf df expected now).rows else [] := by
  rw [insert_df_to_table]
  cases storeOk with
  | false => simp
  | true => simp [List.drop_left]

/-- Claim C7: an empty `FilterRequest` compiles to a predicate every row
satisfies; executing any search returns rows ordered most-recently-ingested
first, capped at 5000; and after appending a batch, an empty search over a
store within the cap returns every appended row. -/
theorem c7_empty_search_roundtrip (table : String) (store : List Row) (now : Nat) :
    (∀ row : Row,
      evalConds now (build_predicate emptyFilterRequest table).conds row = true)
    ∧ (∀ req : FilterRequest,
        sortedDescBy (execute_search req table store now)
        ∧ (execute_search req table store now).length ≤ 5000)
    ∧ (store.length ≤ 5000 →
        ∀ r ∈ store, r ∈ execute_search emptyFilterRequest table store now)
    ∧ (∀ (df : Df) (E : Schema),
        ((insert_df_to_table df E now true store).2).length ≤ 5000 →
        ∀ r ∈ (fixedDf df E now).rows,
          r ∈ execute_search emptyFilterRequest table
            ((insert_df_to_table df E now true store).2) now) := by
  refine ⟨fun row => empty_matches_all table now row, fun req => ?_, ?_, ?_⟩
  · rw [execute_search]
    constructor
    · exact List.Pairwise.sublist (List.take_sublist 5000 _) (sorted_sortDesc _)
    · rw [List.length_take]
      exact Nat.min_le_left _ _
  · exact empty_search_complete table store now
  · intro df E hlen r hr
    apply empty_search_complete table _ now hlen
    show r ∈ store ++ (fixedDf df E now).rows
    exact List.mem_append_right store hr

/-- Witness for C7 at concrete inputs: one stored row is returned by the
empty search. -/
theorem c7_witness :
    [("ingestion_timestamp", Value.tsv 1)]
      ∈ execute_search emptyFilterRequest "state_licence"
          [[("ingestion_timestamp", Value.tsv 1)]] 2 :=
  (c7_empty_search_roundtrip "state_licence"
      [[("ingestion_timestamp", Value.tsv 1)]] 2).2.2.1
    (by decide) [("ingestion_timestamp", Value.tsv 1)] (by decide)

/-- Claim C8: every row produced by one table append carries
`ingestion_timestamp` equal to the single `datetime.utcnow()` sample taken in
that `insert_df_to_table` call, regardless of the source data. -/
theorem c8_ingestion_timestamp_stamped (df : Df) (expected : Schema)
    (now : Nat) (storeOk : Bool) (store : List Row)
    (hE : expected = STATE_COLS ∨ expected = REG_COLS) :
    ∀ r ∈ (insert_df_to_table df expected now storeOk store).2.drop store.length,
      lookupV r "ingestion_timestamp" = some (Value.tsv now) := by
  intro r hr
  rw [insert_new_rows] at hr
  cases storeOk with
  | false => simp at hr
  | true =>
    simp only [if_true] at hr
    exact fixedDf_ts_lookup df expected hE now r hr

def c8df : Df := ⟨["ingestion_timestamp"], [[("ingestion_timestamp", Value.str "1999-01-01 00:00:00")]]⟩

/-- Witness for C8 at concrete inputs: even a source column mapped onto
`ingestion_timestamp` is overwritten with the sample `now = 7`. -/
theorem c8_witness :
    lookupV (((insert_df_to_table c8df STATE_COLS 7 true []).2.drop 0).getD 0 [])
        "ingestion_timestamp" = some (Value.tsv 7) :=
  c8_ingestion_timestamp_stamped c8df STATE_COLS 7 true [] (Or.inl rfl)
    _ (by decide)

/-- Counterexample to claim C9 at concrete inputs: with both terms supplied,
a row whose first primary-key column contains the first term but whose second
does not contain the second term does not satisfy the compiled predicate —
the two contains matches are combined with AND, not OR. -/
theorem c9_counterexample :
    isInfixB "AB".data "xABy".data = true
    ∧ evalConds 0 (build_predicate (pkRequest "AB" "ZZ") "state_licence").conds
        [("REF ID", Value.str "xABy"), ("LICENSE", Value.str "L1")] = false := by
  decide

/-- Claim C9, amended: the two-primary-key case forms an AND across the
per-field substring matches — with both terms supplied a row satisfies the
compiled predicate iff its first primary-key column contains the first term
and its second contains the second. -/
theorem c9_dual_key_is_conjunction (table t1 t2 : String) (now : Nat)
    (row : Row) (v1 v2 : String) (h1 : t1 ≠ "") (h2 : t2 ≠ "")
    (hp1 : '%' ∉ t1.data ∧ '_' ∉ t1.data)
    (hp2 : '%' ∉ t2.data ∧ '_' ∉ t2.data)
    (hv1 : strLookup row ((primary_keys table).getD 0 "") = some v1)
    (hv2 : strLookup row ((primary_keys table).getD 1 "") = some v2) :
    evalConds now (build_predicate (pkRequest t1 t2) table).conds row = true
      ↔ (isInfixB t1.data v1.data = true ∧ isInfixB t2.data v2.data = true) := by
  rw [pk_both_eval table t1 t2 now row v1 v2 h1 h2 hp1 hp2 hv1 hv2]
  exact (Bool.and_eq_true _ _).to_iff

/-- Witness for C9 (amended) at concrete inputs: a row containing both terms
satisfies the predicate. -/
theorem c9_witness :
    evalConds 0 (build_predicate (pkRequest "AB" "L1") "registration").conds
        [("refId", Value.str "xABy"), ("certificateNo", Value.str "L12")] = true :=
  (c9_dual_key_is_conjunction "registration" "AB" "L1" 0
      [("refId", Value.str "xABy"), ("certificateNo", Value.str "L12")]
      "xABy" "L12" (by decide) (by decide) (by decide) (by decide)
      (by decide) (by decide)).mpr ⟨by decide, by decide⟩

/-- Claim C10: within one table append every produced row receives the same
`ingestion_timestamp`: the value is sampled once per `insert_df_to_table`
call and assigned uniformly, not per row. -/
theorem c10_uniform_timestamp (df : Df) (expected : Schema) (now : Nat)
    (storeOk : Bool) (store : List Row)
    (hE : expected = STATE_COLS ∨ expected = REG_COLS) :
    ∀ r1 ∈ (insert_df_to_table df expected now storeOk store).2.drop store.length,
    ∀ r2 ∈ (insert_df_to_table df expected now storeOk store).2.drop store.length,
      lookupV r1 "ingestion_timestamp" = lookupV r2 "ingestion_timestamp" := by
  intro r1 h1 r2 h2
  rw [insert_new_rows] at h1 h2
  cases storeOk with
  | false => simp at h1
  | true =>
    simp only [if_true] at h1 h2
    rw [fixedDf_ts_lookup df expected hE now r1 h1,
        fixedDf_ts_lookup df expected hE now r2 h2]

def c10df : Df :=
  ⟨["FBO NAME"], [[("FBO NAME", Value.str "a")], [("FBO NAME", Value.str "b")]]⟩

/-- Witness for C10 at concrete inputs: the two rows of one appended table
carry the same timestamp. -/
theorem c10_witness :
    lookupV (((insert_df_to_table c10df REG_COLS 9 true []).2.drop 0).getD 0 [])
        "ingestion_timestamp"
      = lookupV (((insert_df_to_table c10df REG_COLS 9 true []).2.drop 0).getD 1 [])
          "ingestion_timestamp" :=
  c10_uniform_timestamp c10df REG_COLS 9 true [] (Or.inr rfl)
    _ (by decide) _ (by decide)

end FSM
